import Mathlib

/-!
# Verification of the CT energy-monitor core (src/ct.rs)

Shallow embedding of the shard store (`CTStorage`) and of the energy estimator
(`CT::calculate_energy`, `impl AddAssign for CTReading`) from `src/ct.rs`.

Modelling conventions:

* Machine integers are carried as `Nat`/`Int`, with explicit wrapping
  (`% 2 ^ w`) exactly where the source can overflow: the `u64` subtraction
  `MAX_SHARD_SIZE - metadata.len()`, its `as usize` truncation (the target is a
  32-bit platform), the `i32` increment of the shard counter, and the `u16`
  addition `max_sample + min_sample`.
* `f32` values are modelled by `F32`: an exact rational for finite values plus
  the IEEE-754 special values NaN and the two infinities.  Rounding of finite
  results is abstracted away (finite arithmetic is exact rational arithmetic,
  and finite square roots go through an uninterpreted approximation function),
  while the propagation of special values (NaN, division by zero) follows
  IEEE 754; the claims that touch floating point depend only on the latter.
* The filesystem is a root-exists flag plus a map from shard id to file
  contents; the directory listing seen by discovery is passed in explicitly as
  the list of entry names, and `save_to_storage` addresses shard files by
  their integer id (the source uses the decimal string of the id).
* Loops are modelled by structural recursion on an explicit fuel/iteration
  budget; the source bounds its loops by wall-clock timeouts, which the
  timing model below renders as an iteration budget with a per-iteration
  duration.
* `anyhow::Result` is modelled by `Except Unit`; the source's logging has no
  observable effect and is dropped.

Constants `MAX_SHARD_SIZE`, `AC_PHASE`, `MAX_MV_ATTEN_11`, `NOISE_THRESHOLD`,
`SUPPLY_VOLTAGE` and `SAVE_PERIOD_TIMEOUT` live in the crate root, which is not
part of `src/`; they are kept as parameters of the definitions below.
`CT_READING_SIZE` is fixed to 30 bytes, the documented record size.
-/

/-- Little-endian byte encoding of `n` on `w` bytes (the `to_le_bytes` layout).
Modelled from the spec: the helpers `add_u16_to_buf`, `add_f32_to_buf` and
`add_u64_to_buf` live in `src/utils.rs`, which is not part of `src/`; the spec
documents them as writing the fields little-endian at consecutive offsets. -/
def leBytes : ℕ → ℕ → List ℕ
  | 0, _ => []
  | w + 1, n => (n % 256) :: leBytes w (n / 256)

/-- Little-endian value of a byte list (the documented decoding rule). -/
def leVal : List ℕ → ℕ
  | [] => 0
  | b :: rest => b + 256 * leVal rest

/-- The fixed record size: 2 + 4 * 5 + 8 = 30 bytes.
Modelled from the spec: the constant `CT_READING_SIZE` lives in the crate
root, which is not part of `src/`. -/
def CT_READING_SIZE : ℕ := 30

/-- One serialized reading, as consumed by `CTStorage::ct_reading_to_le_bytes`:
the phase id (`u16`), the five `f32` fields carried as their IEEE-754 bit
patterns (what `to_le_bytes` serializes), and the `u64` timestamp. -/
structure CTRecord where
  id : ℕ
  real_power : ℕ
  apparent_power : ℕ
  i_rms : ℕ
  v_rms : ℕ
  kwh : ℕ
  timestamp : ℕ
deriving DecidableEq

/-- `CTStorage::ct_reading_to_le_bytes`: the 30-byte little-endian record,
fields in source order (id, real power, apparent power, i_rms, v_rms, kwh,
timestamp). -/
def ct_reading_to_le_bytes (ct : CTRecord) : List ℕ :=
  leBytes 2 ct.id ++ leBytes 4 ct.real_power ++ leBytes 4 ct.apparent_power ++
    leBytes 4 ct.i_rms ++ leBytes 4 ct.v_rms ++ leBytes 4 ct.kwh ++
    leBytes 8 ct.timestamp

/-- External decoder following the documented layout (offsets 0, 2, 6, 10, 14,
18, 22); written from the spec's record-layout sentence, to be compared with
the encoder. -/
def decodeRecord (bytes : List ℕ) : CTRecord :=
  { id := leVal (bytes.take 2)
    real_power := leVal ((bytes.drop 2).take 4)
    apparent_power := leVal ((bytes.drop 6).take 4)
    i_rms := leVal ((bytes.drop 10).take 4)
    v_rms := leVal ((bytes.drop 14).take 4)
    kwh := leVal ((bytes.drop 18).take 4)
    timestamp := leVal (bytes.drop 22) }

/-- The bytes written by one `save_to_storage` call: the records of all phases
back-to-back, in array order (the source writes one `write_all` per phase). -/
def recordsBytes : List CTRecord → List ℕ
  | [] => []
  | c :: rest => ct_reading_to_le_bytes c ++ recordsBytes rest

/-- The filesystem under `/littlefs/ct_readings`: whether the root directory
exists, and the contents of the shard file of each integer id (`none` when the
file does not exist). -/
structure FS where
  rootExists : Bool
  files : ℤ → Option (List ℕ)

/-- The in-memory shard index (`struct CTStorage`): the active shard counter
(`i32`, modelled in `ℤ` with explicit wrapping where the source increments it)
and the set of known shard ids. -/
structure CTStorage where
  readings_shard_counter : ℤ
  readings_shards : Finset ℤ
deriving DecidableEq

/-- `CTStorage::new()`. -/
def CTStorage.new : CTStorage := { readings_shard_counter := 1, readings_shards := ∅ }

/-- Digits of a decimal numeral, most significant first (helper for
`parseI32`). -/
def parseDigitsAux : List Char → ℕ → Option ℕ
  | [], acc => some acc
  | c :: rest, acc =>
    if c.isDigit then parseDigitsAux rest (acc * 10 + (c.toNat - 48)) else none

/-- Nonempty all-digit numeral, or failure. -/
def parseDigits : List Char → Option ℕ
  | [] => none
  | l => parseDigitsAux l 0

/-- Rust's `str::parse::<i32>`: optional sign, then a nonempty digit string,
rejected when out of the `i32` range. -/
def parseI32 (s : String) : Option ℤ :=
  match s.data with
  | '+' :: rest => (parseDigits rest).bind fun n => if n ≤ 2 ^ 31 - 1 then some (n : ℤ) else none
  | '-' :: rest => (parseDigits rest).bind fun n => if n ≤ 2 ^ 31 then some (-(n : ℤ)) else none
  | l => (parseDigits l).bind fun n => if n ≤ 2 ^ 31 - 1 then some (n : ℤ) else none

/-- The directory-scan fold inside `find_newest_readings_shard_num`: walks the
entry names, parses each (any parse failure aborts the whole call), tracks the
running maximum in `max_num`, and inserts every parsed id into the known set.
The model returns on error without the partially grown set; no claim observes
the state after a failed discovery. -/
def discoverFold : List String → ℤ → Finset ℤ → Except Unit (ℤ × Finset ℤ)
  | [], maxNum, shards => Except.ok (maxNum, shards)
  | name :: rest, maxNum, shards =>
    match parseI32 name with
    | none => Except.error ()
    | some num => discoverFold rest (max maxNum num) (insert num shards)

/-- `CTStorage::find_newest_readings_shard_num`: when the root directory is
readable, scan its entries; otherwise create the root.  Note that the source
computes `max_num` but never assigns it to `readings_shard_counter`; the model
reproduces this by dropping the first component of the fold's result. -/
def find_newest_readings_shard_num (listing : List String) (fs : FS) (st : CTStorage) :
    Except Unit (FS × CTStorage) :=
  if fs.rootExists then
    match discoverFold listing 1 st.readings_shards with
    | Except.error e => Except.error e
    | Except.ok (_, shards) => Except.ok (fs, { st with readings_shards := shards })
  else
    Except.ok ({ fs with rootExists := true }, st)

/-- Wrapping `i32` arithmetic (release-mode overflow semantics of the
counter increment `readings_shard_counter += 1`). -/
def wrap32 (n : ℤ) : ℤ := (n + 2 ^ 31) % 2 ^ 32 - 2 ^ 31

/-- Wrapping `u64` subtraction `MAX_SHARD_SIZE - metadata.len()` (release-mode
overflow semantics). -/
def u64WrapSub (a b : ℕ) : ℕ := (2 ^ 64 + a % 2 ^ 64 - b % 2 ^ 64) % 2 ^ 64

/-- The `as usize` cast of a `u64` on the 32-bit target. -/
def usizeOfU64 (n : ℕ) : ℕ := n % 2 ^ 32

/-- `CTStorage::save_to_storage`: stat the active shard (a missing file makes
the whole call fail, as `fs::metadata(..)?` does), rotate to a fresh id when
the remaining room is below one record, then open the (possibly new) active
shard with create+append and write the records of all phases back-to-back.
`maxShardSize` stands for the crate-root constant `MAX_SHARD_SIZE`; the input
list stands for the `[CT; AC_PHASE]` array. -/
def save_to_storage (maxShardSize : ℕ) (fs : FS) (st : CTStorage) (cts : List CTRecord) :
    Except Unit (FS × CTStorage) :=
  match fs.files st.readings_shard_counter with
  | none => Except.error ()
  | some content =>
    let st1 : CTStorage :=
      if usizeOfU64 (u64WrapSub maxShardSize content.length) < CT_READING_SIZE then
        { readings_shard_counter := wrap32 (st.readings_shard_counter + 1),
          readings_shards := insert (wrap32 (st.readings_shard_counter + 1)) st.readings_shards }
      else st
    let oldContent := (fs.files st1.readings_shard_counter).getD []
    Except.ok
      ({ fs with
          files := fun i =>
            if i = st1.readings_shard_counter then some (oldContent ++ recordsBytes cts)
            else fs.files i },
        st1)

/-- Observer: did the save call succeed? -/
def saveOk (maxShardSize : ℕ) (fs : FS) (st : CTStorage) (cts : List CTRecord) : Bool :=
  match save_to_storage maxShardSize fs st cts with
  | Except.ok _ => true
  | Except.error _ => false

/-- Observer: the store state after a save call (unchanged on error, as the
source only mutates the counter before the infallible part of the call). -/
def saveStoreAfter (maxShardSize : ℕ) (fs : FS) (st : CTStorage) (cts : List CTRecord) :
    CTStorage :=
  match save_to_storage maxShardSize fs st cts with
  | Except.ok p => p.2
  | Except.error _ => st

/-- Observer: the shard files after a save call (unchanged on error: the call
fails before any write). -/
def saveFilesAfter (maxShardSize : ℕ) (fs : FS) (st : CTStorage) (cts : List CTRecord) :
    ℤ → Option (List ℕ) :=
  match save_to_storage maxShardSize fs st cts with
  | Except.ok p => p.1.files
  | Except.error _ => fs.files

/-- Observer: the byte length of the active shard after a save call. -/
def saveActiveLenAfter (maxShardSize : ℕ) (fs : FS) (st : CTStorage) (cts : List CTRecord) : ℕ :=
  ((saveFilesAfter maxShardSize fs st cts
      (saveStoreAfter maxShardSize fs st cts).readings_shard_counter).getD []).length

/-- One save step on a filesystem/store pair, passing the pair through
unchanged on error (used to chain several save calls). -/
def saveStep (maxShardSize : ℕ) (p : FS × CTStorage) (cts : List CTRecord) : FS × CTStorage :=
  match save_to_storage maxShardSize p.1 p.2 cts with
  | Except.ok q => q
  | Except.error _ => p

/-- Observer: the known-shard set after discovery (the empty set on error). -/
def discShards (listing : List String) (fs : FS) (st : CTStorage) : Finset ℤ :=
  match find_newest_readings_shard_num listing fs st with
  | Except.ok p => p.2.readings_shards
  | Except.error _ => ∅

/-- Observer: the active shard counter after discovery (0 on error). -/
def discCounter (listing : List String) (fs : FS) (st : CTStorage) : ℤ :=
  match find_newest_readings_shard_num listing fs st with
  | Except.ok p => p.2.readings_shard_counter
  | Except.error _ => 0

/-- Observer: did discovery succeed? -/
def discOk (listing : List String) (fs : FS) (st : CTStorage) : Bool :=
  match find_newest_readings_shard_num listing fs st with
  | Except.ok _ => true
  | Except.error _ => false

/-- Observer: does the root directory exist after discovery? -/
def discRootAfter (listing : List String) (fs : FS) (st : CTStorage) : Bool :=
  match find_newest_readings_shard_num listing fs st with
  | Except.ok p => p.1.rootExists
  | Except.error _ => fs.rootExists

/-- The running maximum that the source's directory scan computes (and then
drops); what the spec expects `discover` to store as the active shard id. -/
def discMaxSeen (listing : List String) (fs : FS) (st : CTStorage) : ℤ :=
  if fs.rootExists then
    match discoverFold listing 1 st.readings_shards with
    | Except.ok p => p.1
    | Except.error _ => 0
  else 1

/-- A model of `f32`: NaN, the two infinities (`inf true` is negative
infinity), and finite values carried as exact rationals.  Rounding and
overflow-to-infinity of finite results are abstracted; special-value
propagation follows IEEE 754. -/
inductive F32 where
  | nan : F32
  | inf : Bool → F32
  | num : ℚ → F32
deriving DecidableEq

/-- IEEE-754 addition on the model. -/
def F32.add : F32 → F32 → F32
  | .nan, _ => .nan
  | _, .nan => .nan
  | .inf s, .inf t => if s = t then .inf s else .nan
  | .inf s, .num _ => .inf s
  | .num _, .inf t => .inf t
  | .num a, .num b => .num (a + b)

/-- IEEE-754 subtraction on the model. -/
def F32.sub : F32 → F32 → F32
  | .nan, _ => .nan
  | _, .nan => .nan
  | .inf s, .inf t => if s = t then .nan else .inf s
  | .inf s, .num _ => .inf s
  | .num _, .inf t => .inf (!t)
  | .num a, .num b => .num (a - b)

/-- IEEE-754 multiplication on the model. -/
def F32.mul : F32 → F32 → F32
  | .nan, _ => .nan
  | _, .nan => .nan
  | .inf s, .inf t => .inf (xor s t)
  | .inf s, .num b => if b = 0 then .nan else .inf (xor s (decide (b < 0)))
  | .num a, .inf t => if a = 0 then .nan else .inf (xor (decide (a < 0)) t)
  | .num a, .num b => .num (a * b)

/-- IEEE-754 division on the model (`0.0 / 0.0` is NaN, `x / 0.0` with
`x ≠ 0` is a signed infinity). -/
def F32.div : F32 → F32 → F32
  | .nan, _ => .nan
  | _, .nan => .nan
  | .inf _, .inf _ => .nan
  | .inf s, .num b => .inf (xor s (decide (b < 0)))
  | .num _, .inf _ => .num 0
  | .num a, .num b =>
    if b = 0 then (if a = 0 then .nan else .inf (decide (a < 0))) else .num (a / b)

/-- `f32::abs`. -/
def F32.abs : F32 → F32
  | .nan => .nan
  | .inf _ => .inf false
  | .num a => .num |a|

/-- `f32::sqrt`: NaN for NaN and negative arguments; on nonnegative finite
values it defers to the uninterpreted approximation `app` (its exact value is
irrelevant to every claim below). -/
def F32.sqrt (app : ℚ → ℚ) : F32 → F32
  | .nan => .nan
  | .inf s => if s then .nan else .inf false
  | .num a => if a < 0 then .nan else .num (app a)

/-- IEEE-754 `<` (false whenever either side is NaN). -/
def F32.lt : F32 → F32 → Bool
  | .nan, _ => false
  | _, .nan => false
  | .inf s, .inf t => s && !t
  | .inf s, .num _ => s
  | .num _, .inf t => !t
  | .num a, .num b => decide (a < b)

/-- Is the value a finite number (neither NaN nor an infinity)? -/
def F32.isFinite : F32 → Bool
  | .num _ => true
  | _ => false

/-- `struct CTReading` (arithmetic view): the five `f32` fields and the `u64`
millisecond timestamp. -/
structure CTReading where
  real_power : F32
  apparent_power : F32
  i_rms : F32
  v_rms : F32
  kwh : F32
  timestamp : ℕ
deriving DecidableEq

/-- `impl ops::AddAssign<CTReading> for CTReading` (the merge rule): RMS and
power fields are averaged, `kwh` is summed, and the `timestamp` field is not
assigned at all (the structure-update below leaves `self.timestamp` in
place, exactly as the source's `add_assign` does). -/
def CTReading.addAssign (self rhs : CTReading) : CTReading :=
  { self with
    i_rms := F32.div (F32.add self.i_rms rhs.i_rms) (F32.num 2)
    v_rms := F32.div (F32.add self.v_rms rhs.v_rms) (F32.num 2)
    real_power := F32.div (F32.add self.real_power rhs.real_power) (F32.num 2)
    apparent_power := F32.div (F32.add self.apparent_power rhs.apparent_power) (F32.num 2)
    kwh := F32.add self.kwh rhs.kwh }

/-- `CTReading::reset`. -/
def CTReading.reset : CTReading :=
  { real_power := F32.num 0, apparent_power := F32.num 0, i_rms := F32.num 0,
    v_rms := F32.num 0, kwh := F32.num 0, timestamp := 0 }

/-- The per-phase calibration and crate-root constants that
`CT::calculate_energy` reads: `vcal`, `phase_cal`, `ical` from the pin
structures, and `SUPPLY_VOLTAGE`, `MAX_MV_ATTEN_11`, `NOISE_THRESHOLD`,
`SAVE_PERIOD_TIMEOUT` from the crate root (not part of `src/`, kept
abstract).  `sqrtApprox` realizes `f32::sqrt` on finite values. -/
structure EstCfg where
  vcal : F32
  phase_cal : F32
  ical : F32
  supply_voltage : F32
  max_mv : ℕ
  noise_threshold : F32
  save_period : F32
  sqrtApprox : ℚ → ℚ

/-- One phase unit (`struct CT` restricted to what `calculate_energy`
mutates): the mutable channel offsets and the accumulated reading. -/
structure CTUnit where
  id : ℕ
  offset_v : F32
  offset_i : F32
  reading : CTReading

/-- The mutable locals of `calculate_energy`'s main measurement loop. -/
structure IState where
  cross_count : ℕ
  n_samples : ℕ
  last_filtered_v : F32
  last_filtered_i : F32
  sample_v : ℕ
  sample_i : ℕ
  offset_v : F32
  offset_i : F32
  min_sample_i : ℕ
  min_sample_v : ℕ
  max_sample_i : ℕ
  max_sample_v : ℕ
  sum_v : F32
  sum_i : F32
  sum_p : F32
  check_v_cross : Bool
deriving DecidableEq

/-- The loop locals right before the main measurement loop starts. -/
def initIState (cfg : EstCfg) (offV offI : F32) : IState :=
  { cross_count := 0, n_samples := 0,
    last_filtered_v := F32.num 0, last_filtered_i := F32.num 0,
    sample_v := 0, sample_i := 0,
    offset_v := offV, offset_i := offI,
    min_sample_i := cfg.max_mv, min_sample_v := cfg.max_mv,
    max_sample_i := 0, max_sample_v := 0,
    sum_v := F32.num 0, sum_i := F32.num 0, sum_p := F32.num 0,
    check_v_cross := false }

/-- One iteration of the main measurement loop (steps A-G of the source).
`r` is the pair of raw ADC reads for this iteration (`none` models a failed
read, which `unwrap_or` replaces by the previous sample). -/
def estStep (cfg : EstCfg) (start_v : ℕ) (r : Option ℕ × Option ℕ) (st : IState) : IState :=
  let sample_i := r.1.getD st.sample_i
  let sample_v := r.2.getD st.sample_v
  let offset_i := F32.add st.offset_i (F32.div (F32.sub (F32.num (sample_i : ℚ)) st.offset_i) (F32.num 512))
  let filtered_i := F32.sub (F32.num (sample_i : ℚ)) offset_i
  let offset_v := F32.add st.offset_v (F32.div (F32.sub (F32.num (sample_v : ℚ)) st.offset_v) (F32.num 512))
  let filtered_v := F32.sub (F32.num (sample_v : ℚ)) offset_v
  let minv := if F32.lt (F32.abs (F32.sub st.last_filtered_v filtered_v)) cfg.noise_threshold
    then min st.min_sample_v sample_v else st.min_sample_v
  let maxv := if F32.lt (F32.abs (F32.sub st.last_filtered_v filtered_v)) cfg.noise_threshold
    then max st.max_sample_v sample_v else st.max_sample_v
  let mini := if F32.lt (F32.abs (F32.sub st.last_filtered_i filtered_i)) cfg.noise_threshold
    then min st.min_sample_i sample_i else st.min_sample_i
  let maxi := if F32.lt (F32.abs (F32.sub st.last_filtered_i filtered_i)) cfg.noise_threshold
    then max st.max_sample_i sample_i else st.max_sample_i
  let sum_v := F32.add st.sum_v (F32.mul filtered_v filtered_v)
  let sum_i := F32.add st.sum_i (F32.mul filtered_i filtered_i)
  let phase_shift_v := F32.add st.last_filtered_v (F32.mul cfg.phase_cal (F32.sub filtered_v st.last_filtered_v))
  let sum_p := F32.add st.sum_p (F32.mul phase_shift_v filtered_i)
  let check1 := decide (sample_v > start_v)
  let last_v_cross := if st.n_samples = 0 then check1 else st.check_v_cross
  let cross_count := if last_v_cross ≠ check1 then st.cross_count + 1 else st.cross_count
  { cross_count := cross_count, n_samples := st.n_samples + 1,
    last_filtered_v := filtered_v, last_filtered_i := filtered_i,
    sample_v := sample_v, sample_i := sample_i,
    offset_v := offset_v, offset_i := offset_i,
    min_sample_i := mini, min_sample_v := minv,
    max_sample_i := maxi, max_sample_v := maxv,
    sum_v := sum_v, sum_i := sum_i, sum_p := sum_p,
    check_v_cross := check1 }

/-- The main measurement loop: `while cross_count < crossing && elapsed <
timeout`, with the timeout rendered as an iteration budget `fuel`.  The raw
reads of iteration `k` are `reads st.n_samples` (the loop has executed
`n_samples` iterations so far). -/
def runLoop (cfg : EstCfg) (start_v : ℕ) (reads : ℕ → Option ℕ × Option ℕ) (crossing : ℕ) :
    ℕ → IState → IState
  | 0, st => st
  | fuel + 1, st =>
    if st.cross_count < crossing then
      runLoop cfg start_v reads crossing fuel (estStep cfg start_v (reads st.n_samples) st)
    else st

/-- Is a raw voltage sample inside the middle 10 percent band of the ADC
range?  The source compares `v as f32` against `MAX_MV_ATTEN_11 as f32 * 0.55`
and `* 0.45`; the model uses the exact rational thresholds 11/20 and 9/20. -/
def bandPred (maxAdc v : ℕ) : Bool :=
  decide (20 * v < 11 * maxAdc) && decide (9 * maxAdc < 20 * v)

/-- The settle loop (step 1 of the source): keep reading the voltage channel
until a sample falls in the mid band; the wall-clock timeout break is rendered
by the fuel bound.  Returns the final `start_v`. -/
def settleLoopV (cfg : EstCfg) (reads : ℕ → Option ℕ) : ℕ → ℕ → ℕ → ℕ
  | 0, _, v => v
  | fuel + 1, k, v =>
    let v1 := (reads k).getD v
    if bandPred cfg.max_mv v1 then v1 else settleLoopV cfg reads fuel (k + 1) v1

/-- The finalization of `calculate_energy` (offset refinement, RMS and power
computation, and the merge into the phase's reading).  `elapsedSecs` stands
for `start.elapsed().as_secs_f32()` and `nowMs` for `now().as_millis()`.
The `u16` addition `max_sample + min_sample` wraps at `2 ^ 16`. -/
def finalizeEst (cfg : EstCfg) (elapsedSecs : ℚ) (nowMs : ℕ) (st : IState)
    (reading : CTReading) : F32 × F32 × CTReading :=
  let offset_i := F32.div (F32.add st.offset_i
    (F32.div (F32.num (((st.max_sample_i + st.min_sample_i) % 2 ^ 16 : ℕ) : ℚ)) (F32.num 2))) (F32.num 2)
  let offset_v := F32.div (F32.add st.offset_v
    (F32.div (F32.num (((st.max_sample_v + st.min_sample_v) % 2 ^ 16 : ℕ) : ℚ)) (F32.num 2))) (F32.num 2)
  let v_ratio := F32.mul cfg.vcal (F32.div cfg.supply_voltage (F32.num (cfg.max_mv : ℚ)))
  let v_rms := F32.mul v_ratio (F32.sqrt cfg.sqrtApprox (F32.div st.sum_v (F32.num (st.n_samples : ℚ))))
  let i_ratio := F32.mul cfg.ical (F32.div cfg.supply_voltage (F32.num (cfg.max_mv : ℚ)))
  let i_rms := F32.mul i_ratio (F32.sqrt cfg.sqrtApprox (F32.div st.sum_i (F32.num (st.n_samples : ℚ))))
  let real_power := F32.abs (F32.mul (F32.mul v_ratio i_ratio) (F32.div st.sum_p (F32.num (st.n_samples : ℚ))))
  let apparent_power := F32.mul v_rms i_rms
  let kwh := F32.div (F32.mul real_power (F32.num elapsedSecs)) cfg.save_period
  let new_reading : CTReading :=
    { real_power := real_power, apparent_power := apparent_power,
      i_rms := i_rms, v_rms := v_rms, kwh := kwh, timestamp := nowMs }
  (offset_v, offset_i, CTReading.addAssign reading new_reading)

/-- The whole of `CT::calculate_energy` as a pure computation: settle, main
loop, finalize.  The sample source is split per loop (`settleReads` feeds the
settle loop, `reads` the main loop); fuels render the two wall-clock
timeouts. -/
def calculate_energy_run (cfg : EstCfg) (ct : CTUnit) (settleReads : ℕ → Option ℕ)
    (settleFuel : ℕ) (reads : ℕ → Option ℕ × Option ℕ) (crossing fuel : ℕ)
    (elapsedSecs : ℚ) (nowMs : ℕ) : CTUnit :=
  let start_v := settleLoopV cfg settleReads settleFuel 0 0
  let st := runLoop cfg start_v reads crossing fuel (initIState cfg ct.offset_v ct.offset_i)
  let r := finalizeEst cfg elapsedSecs nowMs st ct.reading
  { ct with offset_v := r.1, offset_i := r.2.1, reading := r.2.2 }

/-- `CT::calculate_energy` returns `anyhow::Result<()>` but has no failing
path (all fallible reads go through `unwrap_or`): the model always returns
`Except.ok` of the mutated phase unit. -/
def calculate_energy (cfg : EstCfg) (ct : CTUnit) (settleReads : ℕ → Option ℕ)
    (settleFuel : ℕ) (reads : ℕ → Option ℕ × Option ℕ) (crossing fuel : ℕ)
    (elapsedSecs : ℚ) (nowMs : ℕ) : Except Unit CTUnit :=
  Except.ok (calculate_energy_run cfg ct settleReads settleFuel reads crossing fuel elapsedSecs nowMs)

/-- The effective voltage-sample sequence of the main loop: the value the
loop's `sample_v` holds after iteration `k`, with failed reads replaced by the
previous value (`sample_v` starts at 0). -/
def effV (reads : ℕ → Option ℕ × Option ℕ) : ℕ → ℕ
  | 0 => (reads 0).2.getD 0
  | k + 1 => (reads (k + 1)).2.getD (effV reads k)

/-- Number of zero-crossings among the first `k` effective voltage samples:
adjacent pairs on opposite sides of `start_v` (side = is the sample strictly
greater than `start_v`).  The first sample never contributes. -/
def crossesUpTo (s : ℕ) (e : ℕ → ℕ) : ℕ → ℕ
  | 0 => 0
  | 1 => 0
  | k + 2 =>
    crossesUpTo s e (k + 1) + (if decide (e (k + 1) > s) = decide (e k > s) then 0 else 1)

/-- Iterating the main-loop body `k` times from a state, ignoring the
crossing-target guard (helper for relating `runLoop` to `crossesUpTo`). -/
def stepN (cfg : EstCfg) (start_v : ℕ) (reads : ℕ → Option ℕ × Option ℕ) :
    ℕ → IState → IState
  | 0, st => st
  | k + 1, st =>
    estStep cfg start_v (reads (stepN cfg start_v reads k st).n_samples)
      (stepN cfg start_v reads k st)

/-- Timing model of the settle loop: iteration `k` reads one sample (its
in-band test is `inBand k`), each iteration lasts `d` time units, and the
loop breaks after the read either on an in-band sample or once elapsed time
exceeds `timeout`.  Returns the number of iterations executed. -/
def settleLoopT (inBand : ℕ → Bool) (d timeout : ℕ) : ℕ → ℕ → ℕ
  | 0, k => k
  | fuel + 1, k =>
    if inBand k || decide ((k + 1) * d > timeout) then k + 1
    else settleLoopT inBand d timeout fuel (k + 1)

/-- Timing model of the main measurement loop: the guard is checked before
each iteration (`reached k` = the crossing target is met after `k`
iterations, `k * d ≥ timeout` = the timeout elapsed), each iteration lasts
`d` time units.  Returns the number of iterations executed. -/
def integLoopT (reached : ℕ → Bool) (d timeout : ℕ) : ℕ → ℕ → ℕ
  | 0, k => k
  | fuel + 1, k =>
    if reached k || decide (k * d ≥ timeout) then k
    else integLoopT reached d timeout fuel (k + 1)

/-- Total wall-clock time of one `estimate` call in the timing model: the
settle loop runs against a fresh clock, then (as in the source, which resets
`start` between the loops) the main loop runs against another fresh clock.
`dS` and `dI` are the per-iteration (sample-read) durations of the two
loops. -/
def estimateTime (inBand reached : ℕ → Bool) (dS dI timeout : ℕ) : ℕ :=
  settleLoopT inBand dS timeout (timeout + 2) 0 * dS +
    integLoopT reached dI timeout (timeout + 2) 0 * dI

/-- Concrete record with all-zero fields (shared by the concrete scenarios). -/
def exRec : CTRecord :=
  { id := 0, real_power := 0, apparent_power := 0, i_rms := 0, v_rms := 0,
    kwh := 0, timestamp := 0 }

/-- A three-phase readings array (`AC_PHASE = 3`). -/
def cts3 : List CTRecord := [exRec, exRec, exRec]

/-- Concrete estimator configuration for the concrete scenarios. -/
def exCfg : EstCfg :=
  { vcal := F32.num 1, phase_cal := F32.num 1, ical := F32.num 1,
    supply_voltage := F32.num 1, max_mv := 100, noise_threshold := F32.num 1,
    save_period := F32.num 1, sqrtApprox := fun _ => 0 }

/-- C1: evaluation of discovery at the claim's own scenario.  The storage root
contains files "1", "2", "5"; `find_newest_readings_shard_num` records the
known ids {1, 2, 5} and its scan computes 5 as the maximum, but the active
shard counter is left at 1: the source never assigns `max_num` to
`readings_shard_counter`, contradicting the function's own doc comment ("This
is the file that we will be appending new data to").  The claim's
known-id part holds; its active-shard part is violated by the code. -/
theorem discover_on_1_2_5_keeps_counter_one :
    discShards ["1", "2", "5"] { rootExists := true, files := fun _ => none } CTStorage.new
        = ({1, 2, 5} : Finset ℤ) ∧
      discOk ["1", "2", "5"] { rootExists := true, files := fun _ => none } CTStorage.new = true ∧
      discMaxSeen ["1", "2", "5"] { rootExists := true, files := fun _ => none } CTStorage.new = 5 ∧
      discCounter ["1", "2", "5"] { rootExists := true, files := fun _ => none } CTStorage.new = 1 ∧
      (1 : ℤ) ≠ 5 := by
  decide

/-- C2: evaluation at the claim's scenario.  With no storage root, discovery
succeeds, creates the root, leaves the known set empty and the counter at its
default 1 — but the first save on the resulting (empty) root fails: the source
stats the active shard with `fs::metadata(..)?` before ever creating it, so
the missing file aborts the call instead of being created lazily (the
`.create(true)` on the subsequent open shows the lazy creation was the
intent). -/
theorem discover_no_root_then_first_save_fails :
    discOk [] { rootExists := false, files := fun _ => none } CTStorage.new = true ∧
      discRootAfter [] { rootExists := false, files := fun _ => none } CTStorage.new = true ∧
      discCounter [] { rootExists := false, files := fun _ => none } CTStorage.new = 1 ∧
      discShards [] { rootExists := false, files := fun _ => none } CTStorage.new = ∅ ∧
      saveOk 1024 { rootExists := true, files := fun _ => none } CTStorage.new cts3 = false := by
  decide

/-- C3, counterexample: three consecutive successful three-phase saves with
`MAX_SHARD_SIZE = 120` starting from an empty shard 1.  After the second save
the shard holds 180 bytes (within the claimed slack), and the third save —
whose active shard already exceeds the maximum — does not rotate (the `u64`
subtraction `MAX_SHARD_SIZE - len` wraps, so the room test fails) and grows
the same shard to 270 bytes, exceeding the maximum by more than one
record-array (120 + 3 * 30 < 270). -/
theorem save_grows_shard_past_bound :
    (let p0 : FS × CTStorage :=
      ({ rootExists := true, files := fun i => if i = 1 then some [] else none },
        { readings_shard_counter := 1, readings_shards := {1} });
    let p1 := saveStep 120 p0 cts3;
    let p2 := saveStep 120 p1 cts3;
    let p3 := saveStep 120 p2 cts3;
    ((p2.1.files 1).getD []).length = 180 ∧ 120 < 180 ∧
      p3.2.readings_shard_counter = 1 ∧
      ((p3.1.files 1).getD []).length = 270 ∧
      120 + 3 * CT_READING_SIZE < 270) := by
  decide

/-- C4, counterexample: three-phase save with `MAX_SHARD_SIZE = 120` and an
active shard of 60 bytes.  One record-array (3 * 30 = 90 bytes) would exceed
the maximum (60 + 90 > 120), so the claim demands a rotation, but the save
succeeds without rotating: the source only checks for one record's worth
(30 bytes) of room. -/
theorem save_no_rotation_with_record_array_overflow :
    (saveStoreAfter 120
        { rootExists := true, files := fun i => if i = 1 then some (List.replicate 60 0) else none }
        { readings_shard_counter := 1, readings_shards := {1} } cts3).readings_shard_counter = 1 ∧
      saveOk 120
        { rootExists := true, files := fun i => if i = 1 then some (List.replicate 60 0) else none }
        { readings_shard_counter := 1, readings_shards := {1} } cts3 = true ∧
      120 < 60 + 3 * CT_READING_SIZE := by
  decide

/-- C5, counterexample: merging a new reading (timestamp 99) into an existing
one (timestamp 5) leaves the timestamp at 5: `add_assign` never assigns the
`timestamp` field and its caller does not copy it either, so the merged
reading does not take the new reading's timestamp as claimed. -/
theorem merge_keeps_old_timestamp :
    (CTReading.addAssign
        { real_power := F32.num 1, apparent_power := F32.num 1, i_rms := F32.num 1,
          v_rms := F32.num 1, kwh := F32.num 1, timestamp := 5 }
        { real_power := F32.num 3, apparent_power := F32.num 3, i_rms := F32.num 3,
          v_rms := F32.num 3, kwh := F32.num 3, timestamp := 99 }).timestamp = 5 ∧
      (5 : ℕ) ≠ 99 := by
  decide

/-- C6, counterexample: a flat-line source (all samples 0, which is never in
the mid band and never crosses), one time unit per sample read, timeout 10.
The settle loop spins for 11 units against its own clock, then the
measurement loop restarts the clock (`start = Instant::now()` between the
loops) and spins for another 10 units: the call takes 21 units, far beyond
timeout + one sample read + one iteration (10 + 1 + 1). -/
theorem estimate_time_two_timeouts_on_flat_line :
    estimateTime (fun k => bandPred 100 ((fun _ => 0) k))
        (fun k => decide (1 ≤ crossesUpTo 0 (effV fun _ => (some 0, some 0)) k)) 1 1 10 = 21 ∧
      ¬(21 ≤ 10 + 1 + 1) := by
  decide

/-- Helper: `leBytes w n` always has exactly `w` bytes. -/
theorem leBytes_length : ∀ (w n : ℕ), (leBytes w n).length = w
  | 0, _ => rfl
  | w + 1, n => by simp [leBytes, leBytes_length w]

/-- Helper: little-endian decoding inverts encoding for in-range values. -/
theorem leVal_leBytes : ∀ (w n : ℕ), n < 2 ^ (8 * w) → leVal (leBytes w n) = n := by
  intro w
  induction w with
  | zero =>
    intro n h
    simp only [leBytes, leVal]
    omega
  | succ w ih =>
    intro n h
    have hpow : 2 ^ (8 * (w + 1)) = 2 ^ (8 * w) * 256 := by
      rw [Nat.mul_succ, pow_add]
      norm_num
    have hdiv : n / 256 < 2 ^ (8 * w) := by
      rw [hpow] at h
      exact Nat.div_lt_of_lt_mul (by omega)
    simp only [leBytes, leVal, ih (n / 256) hdiv]
    omega

/-- Helper: every serialized record is exactly 30 bytes. -/
theorem ct_reading_to_le_bytes_length (r : CTRecord) :
    (ct_reading_to_le_bytes r).length = 30 := by
  simp [ct_reading_to_le_bytes, leBytes_length]

/-- Helper: one save call writes `30 * AC_PHASE` bytes. -/
theorem recordsBytes_length : ∀ (l : List CTRecord), (recordsBytes l).length = l.length * 30
  | [] => rfl
  | c :: rest => by
    simp [recordsBytes, recordsBytes_length rest, ct_reading_to_le_bytes_length]
    ring

/-- Helper: on a successful save, the resulting filesystem is the input one
with exactly the post-rotation active shard replaced by its old content plus
the serialized records. -/
theorem save_ok_inv (maxS : ℕ) (fs : FS) (st : CTStorage) (cts : List CTRecord) (fs2 : FS)
    (st2 : CTStorage) (h : save_to_storage maxS fs st cts = Except.ok (fs2, st2)) :
    ∀ i : ℤ, fs2.files i =
      if i = st2.readings_shard_counter then
        some ((fs.files st2.readings_shard_counter).getD [] ++ recordsBytes cts)
      else fs.files i := by
  unfold save_to_storage at h
  cases hmc : fs.files st.readings_shard_counter with
  | none => rw [hmc] at h; cases h
  | some c =>
    rw [hmc] at h
    simp only [Except.ok.injEq, Prod.mk.injEq] at h
    obtain ⟨hfs, hst⟩ := h
    subst hst
    rw [← hfs]
    intro i
    rfl

/-- Helper: the rotation test of `save_to_storage`, for a shard that has not
outgrown the maximum (and a maximum below `2 ^ 32`), is exactly "one more
record would exceed the maximum". -/
theorem rotation_test_iff (maxS len : ℕ) (hlen : len ≤ maxS) (hmax : maxS < 2 ^ 32) :
    (usizeOfU64 (u64WrapSub maxS len) < CT_READING_SIZE) ↔ (maxS < len + CT_READING_SIZE) := by
  unfold usizeOfU64 u64WrapSub CT_READING_SIZE
  omega

/-- Helper: the `i32` increment does not wrap below `i32::MAX`. -/
theorem wrap32_add_one (n : ℤ) (hlo : -2 ^ 31 ≤ n) (hhi : n < 2 ^ 31 - 1) :
    wrap32 (n + 1) = n + 1 := by
  unfold wrap32
  omega

/-- C4 (amended): with the active shard present and not already above the
maximum (and the counter away from `i32::MAX`), `save_to_storage` rotates
exactly when the shard's size plus ONE record's worth of bytes
(`CT_READING_SIZE`, not one record-array's worth as the claim states) would
exceed the maximum; on rotation the counter is incremented by one and the new
id inserted into the known set, otherwise the store state is unchanged. -/
theorem save_rotates_iff_one_record_overflow (maxS : ℕ) (fs : FS) (st : CTStorage)
    (cts : List CTRecord) (c : List ℕ)
    (hc : fs.files st.readings_shard_counter = some c)
    (hlen : c.length ≤ maxS) (hmax : maxS < 2 ^ 32)
    (hlo : -2 ^ 31 ≤ st.readings_shard_counter)
    (hhi : st.readings_shard_counter < 2 ^ 31 - 1) :
    saveOk maxS fs st cts = true ∧
      saveStoreAfter maxS fs st cts =
        (if maxS < c.length + CT_READING_SIZE then
          { readings_shard_counter := st.readings_shard_counter + 1,
            readings_shards := insert (st.readings_shard_counter + 1) st.readings_shards }
        else st) := by
  have hcond := rotation_test_iff maxS c.length hlen hmax
  have hwrap := wrap32_add_one st.readings_shard_counter hlo hhi
  unfold saveOk saveStoreAfter save_to_storage
  rw [hc]
  by_cases h : maxS < c.length + CT_READING_SIZE
  · simp only [if_pos (hcond.mpr h), if_pos h, hwrap]
    exact ⟨trivial, trivial⟩
  · simp only [if_neg (fun hx => h (hcond.mp hx)), if_neg h]
    exact ⟨trivial, trivial⟩

/-- C4 witness: a concrete rotating save (100-byte maximum, 80-byte active
shard): the store rotates to shard 2. -/
theorem save_rotates_iff_one_record_overflow_witness :
    (100 : ℕ) < 80 + CT_READING_SIZE ∧
      saveStoreAfter 100
          { rootExists := true, files := fun i => if i = 1 then some (List.replicate 80 0) else none }
          { readings_shard_counter := 1, readings_shards := {1} } cts3 =
        { readings_shard_counter := 2, readings_shards := insert 2 {1} } := by
  refine ⟨by decide, ?_⟩
  have h := (save_rotates_iff_one_record_overflow 100
    { rootExists := true, files := fun i => if i = 1 then some (List.replicate 80 0) else none }
    { readings_shard_counter := 1, readings_shards := {1} } cts3 (List.replicate 80 0)
    (by decide) (by decide) (by decide) (by decide) (by decide)).2
  rw [h]
  decide

/-- C3 (amended): the counterexample above forces two restrictions that the
claim omits: the active shard must not already be beyond the maximum (else the
wrapping `u64` subtraction disables rotation forever), and the rotation target
must not collide with a pre-existing nonempty file.  Under those conditions a
save succeeds, the shard it writes ends at most `(AC_PHASE - 1)` records past
the maximum, and when even a single extra record would not fit the save moves
to a strictly greater shard id. -/
theorem save_size_bound_of_shard_below_max (maxS : ℕ) (fs : FS) (st : CTStorage)
    (cts : List CTRecord) (c : List ℕ)
    (hc : fs.files st.readings_shard_counter = some c)
    (hlen : c.length ≤ maxS) (hmax : maxS < 2 ^ 32)
    (hmin : CT_READING_SIZE ≤ maxS) (hone : 1 ≤ cts.length)
    (hrot : maxS < c.length + CT_READING_SIZE →
      (fs.files (st.readings_shard_counter + 1)).getD [] = [])
    (hlo : -2 ^ 31 ≤ st.readings_shard_counter)
    (hhi : st.readings_shard_counter < 2 ^ 31 - 1) :
    saveOk maxS fs st cts = true ∧
      saveActiveLenAfter maxS fs st cts ≤ maxS + (cts.length - 1) * CT_READING_SIZE ∧
      (maxS < c.length + CT_READING_SIZE →
        st.readings_shard_counter < (saveStoreAfter maxS fs st cts).readings_shard_counter) := by
  have hcond := rotation_test_iff maxS c.length hlen hmax
  have hwrap := wrap32_add_one st.readings_shard_counter hlo hhi
  have hrb := recordsBytes_length cts
  unfold saveOk saveActiveLenAfter saveFilesAfter saveStoreAfter save_to_storage
  rw [hc]
  by_cases h : maxS < c.length + CT_READING_SIZE
  · simp only [if_pos (hcond.mpr h), hwrap]
    refine ⟨trivial, ?_, fun _ => by omega⟩
    simp only [hrot h, eq_self_iff_true, ite_true, Option.getD_some, List.nil_append,
      List.length_append, hrb]
    simp only [CT_READING_SIZE] at hmin ⊢
    omega
  · simp only [if_neg (fun hx => h (hcond.mp hx))]
    refine ⟨trivial, ?_, fun hx => absurd hx h⟩
    simp only [hc, eq_self_iff_true, ite_true, Option.getD_some, List.length_append, hrb]
    simp only [CT_READING_SIZE] at h ⊢
    omega

/-- C3 witness: a concrete save at a 100-byte maximum with a 90-byte active
shard and a clean rotation target: the save succeeds, ends at 90 bytes
(three-phase record-array) which is within 100 + 2 * 30, and rotates upward. -/
theorem save_size_bound_of_shard_below_max_witness :
    (100 : ℕ) < 90 + CT_READING_SIZE ∧
      saveOk 100
          { rootExists := true, files := fun i => if i = 1 then some (List.replicate 90 0) else none }
          { readings_shard_counter := 1, readings_shards := {1} } cts3 = true := by
  refine ⟨by decide, ?_⟩
  exact (save_size_bound_of_shard_below_max 100
    { rootExists := true, files := fun i => if i = 1 then some (List.replicate 90 0) else none }
    { readings_shard_counter := 1, readings_shards := {1} } cts3 (List.replicate 90 0)
    (by decide) (by decide) (by decide) (by decide) (by decide)
    (fun _ => by decide) (by decide) (by decide)).1

/-- C9: a save call modifies at most the file of the (post-rotation) active
shard id: every other shard file — in particular the previously active shard
whenever the call rotated away from it — keeps its byte content, and the
active shard's new content is its old content with the serialized records
appended (existing bytes are never overwritten).  On a failed save nothing is
written at all. -/
theorem save_touches_only_active_shard (maxS : ℕ) (fs : FS) (st : CTStorage)
    (cts : List CTRecord) :
    (∀ i : ℤ, i ≠ (saveStoreAfter maxS fs st cts).readings_shard_counter →
        saveFilesAfter maxS fs st cts i = fs.files i) ∧
      (saveOk maxS fs st cts = true →
        saveFilesAfter maxS fs st cts (saveStoreAfter maxS fs st cts).readings_shard_counter =
          some ((fs.files (saveStoreAfter maxS fs st cts).readings_shard_counter).getD [] ++
            recordsBytes cts)) ∧
      ((saveStoreAfter maxS fs st cts).readings_shard_counter ≠ st.readings_shard_counter →
        saveFilesAfter maxS fs st cts st.readings_shard_counter =
          fs.files st.readings_shard_counter) := by
  cases hsv : save_to_storage maxS fs st cts with
  | error e =>
    unfold saveOk saveFilesAfter saveStoreAfter
    rw [hsv]
    dsimp only
    exact ⟨fun i _ => rfl, fun hx => (Bool.false_ne_true hx).elim, fun _ => rfl⟩
  | ok p =>
    obtain ⟨fs2, st2⟩ := p
    have hinv := save_ok_inv maxS fs st cts fs2 st2 hsv
    unfold saveOk saveFilesAfter saveStoreAfter
    rw [hsv]
    dsimp only
    refine ⟨fun i hi => ?_, fun _ => ?_, fun hne => ?_⟩
    · rw [hinv i, if_neg hi]
    · rw [hinv _, if_pos rfl]
    · rw [hinv _, if_neg (Ne.symm hne)]

/-- C9 witness: a concrete non-rotating save leaves an unrelated shard file
(id 5) untouched. -/
theorem save_touches_only_active_shard_witness :
    (5 : ℤ) ≠ (saveStoreAfter 1024
        { rootExists := true, files := fun i => if i = 1 then some [7] else none }
        { readings_shard_counter := 1, readings_shards := {1} } cts3).readings_shard_counter ∧
      saveFilesAfter 1024
          { rootExists := true, files := fun i => if i = 1 then some [7] else none }
          { readings_shard_counter := 1, readings_shards := {1} } cts3 5 =
        FS.files { rootExists := true, files := fun i => if i = 1 then some [7] else none } 5 := by
  refine ⟨by decide, ?_⟩
  exact (save_touches_only_active_shard 1024
    { rootExists := true, files := fun i => if i = 1 then some [7] else none }
    { readings_shard_counter := 1, readings_shards := {1} } cts3).1 5 (by decide)

/-- C7: one phase's record is exactly 30 little-endian bytes with the phase id
(`u16`) at offset 0, the five `f32` fields (as their bit patterns) at offsets
2, 6, 10, 14, 18, and the `u64` timestamp at offset 22; an external decoder
following that layout recovers every field bit-exactly (hence within float32
precision, and the timestamp exactly), and a successful save appends the
records of all phases back-to-back with no separators or headers. -/
theorem record_layout_roundtrip_and_save_append (r : CTRecord)
    (h1 : r.id < 2 ^ 16) (h2 : r.real_power < 2 ^ 32) (h3 : r.apparent_power < 2 ^ 32)
    (h4 : r.i_rms < 2 ^ 32) (h5 : r.v_rms < 2 ^ 32) (h6 : r.kwh < 2 ^ 32)
    (h7 : r.timestamp < 2 ^ 64) :
    (ct_reading_to_le_bytes r).length = 30 ∧
      (ct_reading_to_le_bytes r).take 2 = leBytes 2 r.id ∧
      ((ct_reading_to_le_bytes r).drop 2).take 4 = leBytes 4 r.real_power ∧
      ((ct_reading_to_le_bytes r).drop 6).take 4 = leBytes 4 r.apparent_power ∧
      ((ct_reading_to_le_bytes r).drop 10).take 4 = leBytes 4 r.i_rms ∧
      ((ct_reading_to_le_bytes r).drop 14).take 4 = leBytes 4 r.v_rms ∧
      ((ct_reading_to_le_bytes r).drop 18).take 4 = leBytes 4 r.kwh ∧
      (ct_reading_to_le_bytes r).drop 22 = leBytes 8 r.timestamp ∧
      decodeRecord (ct_reading_to_le_bytes r) = r ∧
      (∀ (maxS : ℕ) (fs : FS) (st : CTStorage) (cts : List CTRecord) (fs2 : FS)
        (st2 : CTStorage), save_to_storage maxS fs st cts = Except.ok (fs2, st2) →
        fs2.files st2.readings_shard_counter =
          some ((fs.files st2.readings_shard_counter).getD [] ++ recordsBytes cts)) := by
  obtain ⟨ri, rrp, rap, rir, rvr, rkw, rts⟩ := r
  simp only at h1 h2 h3 h4 h5 h6 h7
  have e0 : ct_reading_to_le_bytes ⟨ri, rrp, rap, rir, rvr, rkw, rts⟩ =
      leBytes 2 ri ++ (leBytes 4 rrp ++ (leBytes 4 rap ++ (leBytes 4 rir ++
        (leBytes 4 rvr ++ (leBytes 4 rkw ++ leBytes 8 rts))))) := by
    simp [ct_reading_to_le_bytes, List.append_assoc]
  set b := ct_reading_to_le_bytes ⟨ri, rrp, rap, rir, rvr, rkw, rts⟩ with hb
  have ht0 : b.take 2 = leBytes 2 ri := by
    rw [e0]; exact List.take_left' (leBytes_length 2 ri)
  have hd0 : b.drop 2 = leBytes 4 rrp ++ (leBytes 4 rap ++ (leBytes 4 rir ++
      (leBytes 4 rvr ++ (leBytes 4 rkw ++ leBytes 8 rts)))) := by
    rw [e0]; exact List.drop_left' (leBytes_length 2 ri)
  have ht1 : (b.drop 2).take 4 = leBytes 4 rrp := by
    rw [hd0]; exact List.take_left' (leBytes_length 4 rrp)
  have hd1 : b.drop 6 = leBytes 4 rap ++ (leBytes 4 rir ++ (leBytes 4 rvr ++
      (leBytes 4 rkw ++ leBytes 8 rts))) := by
    rw [show (6 : ℕ) = 2 + 4 from rfl, ← List.drop_drop, hd0]
    exact List.drop_left' (leBytes_length 4 rrp)
  have ht2 : (b.drop 6).take 4 = leBytes 4 rap := by
    rw [hd1]; exact List.take_left' (leBytes_length 4 rap)
  have hd2 : b.drop 10 = leBytes 4 rir ++ (leBytes 4 rvr ++ (leBytes 4 rkw ++ leBytes 8 rts)) := by
    rw [show (10 : ℕ) = 6 + 4 from rfl, ← List.drop_drop, hd1]
    exact List.drop_left' (leBytes_length 4 rap)
  have ht3 : (b.drop 10).take 4 = leBytes 4 rir := by
    rw [hd2]; exact List.take_left' (leBytes_length 4 rir)
  have hd3 : b.drop 14 = leBytes 4 rvr ++ (leBytes 4 rkw ++ leBytes 8 rts) := by
    rw [show (14 : ℕ) = 10 + 4 from rfl, ← List.drop_drop, hd2]
    exact List.drop_left' (leBytes_length 4 rir)
  have ht4 : (b.drop 14).take 4 = leBytes 4 rvr := by
    rw [hd3]; exact List.take_left' (leBytes_length 4 rvr)
  have hd4 : b.drop 18 = leBytes 4 rkw ++ leBytes 8 rts := by
    rw [show (18 : ℕ) = 14 + 4 from rfl, ← List.drop_drop, hd3]
    exact List.drop_left' (leBytes_length 4 rvr)
  have ht5 : (b.drop 18).take 4 = leBytes 4 rkw := by
    rw [hd4]; exact List.take_left' (leBytes_length 4 rkw)
  have hd5 : b.drop 22 = leBytes 8 rts := by
    rw [show (22 : ℕ) = 18 + 4 from rfl, ← List.drop_drop, hd4]
    exact List.drop_left' (leBytes_length 4 rkw)
  have hdec : decodeRecord b = ⟨ri, rrp, rap, rir, rvr, rkw, rts⟩ := by
    unfold decodeRecord
    rw [ht0, ht1, ht2, ht3, ht4, ht5, hd5]
    rw [leVal_leBytes 2 ri (by omega), leVal_leBytes 4 rrp (by omega),
      leVal_leBytes 4 rap (by omega), leVal_leBytes 4 rir (by omega),
      leVal_leBytes 4 rvr (by omega), leVal_leBytes 4 rkw (by omega),
      leVal_leBytes 8 rts (by omega)]
  refine ⟨ct_reading_to_le_bytes_length _, ht0, ht1, ht2, ht3, ht4, ht5, hd5, hdec, ?_⟩
  intro maxS fs st cts fs2 st2 hsv
  rw [save_ok_inv maxS fs st cts fs2 st2 hsv st2.readings_shard_counter, if_pos rfl]

/-- C7 witness: the layout round-trips on a concrete record. -/
theorem record_layout_roundtrip_and_save_append_witness :
    (1 : ℕ) < 2 ^ 16 ∧
      decodeRecord (ct_reading_to_le_bytes ⟨1, 2, 3, 4, 5, 6, 7⟩) = ⟨1, 2, 3, 4, 5, 6, 7⟩ := by
  refine ⟨by decide, ?_⟩
  exact (record_layout_roundtrip_and_save_append ⟨1, 2, 3, 4, 5, 6, 7⟩ (by decide) (by decide)
    (by decide) (by decide) (by decide) (by decide) (by decide)).2.2.2.2.2.2.2.2.1

/-- C5 (amended): the merge rule averages the four instantaneous fields
(exact arithmetic mean on finite values), sums accumulated energy — so after
N consecutive merges without a reset the energy is the initial value plus the
sum of the N increments — and does NOT take the timestamp from the new
reading: `add_assign` never assigns `timestamp` (nor does its caller), so the
merged reading keeps the existing reading's timestamp. -/
theorem merge_averages_sums_energy_keeps_timestamp :
    (∀ (a b c d e f g h p q : ℚ) (t1 t2 : ℕ),
      CTReading.addAssign
          { real_power := F32.num a, apparent_power := F32.num c, i_rms := F32.num e,
            v_rms := F32.num g, kwh := F32.num p, timestamp := t1 }
          { real_power := F32.num b, apparent_power := F32.num d, i_rms := F32.num f,
            v_rms := F32.num h, kwh := F32.num q, timestamp := t2 } =
        { real_power := F32.num ((a + b) / 2), apparent_power := F32.num ((c + d) / 2),
          i_rms := F32.num ((e + f) / 2), v_rms := F32.num ((g + h) / 2),
          kwh := F32.num (p + q), timestamp := t1 }) ∧
    (∀ (old : CTReading) (rs : List CTReading) (qs : List ℚ) (p : ℚ),
      old.kwh = F32.num p → rs.map CTReading.kwh = qs.map F32.num →
      (rs.foldl CTReading.addAssign old).kwh = F32.num (p + qs.sum)) := by
  constructor
  · intro a b c d e f g h p q t1 t2
    simp [CTReading.addAssign, F32.add, F32.div]
  · intro old rs
    induction rs generalizing old with
    | nil =>
      intro qs p hp hmap
      have : qs = [] := by
        cases qs with
        | nil => rfl
        | cons x xs => simp at hmap
      subst this
      simpa using hp
    | cons r rs ih =>
      intro qs p hp hmap
      cases qs with
      | nil => simp at hmap
      | cons q qs =>
        simp only [List.map_cons, List.cons.injEq] at hmap
        obtain ⟨hr, hrest⟩ := hmap
        have hstep : (CTReading.addAssign old r).kwh = F32.num (p + q) := by
          simp [CTReading.addAssign, hp, hr, F32.add]
        have := ih (CTReading.addAssign old r) qs (p + q) hstep hrest
        simp only [List.foldl_cons, this, List.sum_cons]
        ring_nf

/-- C5 witness: one concrete merge sums the energy increments. -/
theorem merge_averages_sums_energy_keeps_timestamp_witness :
    CTReading.kwh
        { real_power := F32.num 0, apparent_power := F32.num 0, i_rms := F32.num 0,
          v_rms := F32.num 0, kwh := F32.num 1, timestamp := 0 } = F32.num 1 ∧
      (([{ real_power := F32.num 0, apparent_power := F32.num 0, i_rms := F32.num 0,
            v_rms := F32.num 0, kwh := F32.num 2, timestamp := 9 }] : List CTReading).foldl
          CTReading.addAssign
          { real_power := F32.num 0, apparent_power := F32.num 0, i_rms := F32.num 0,
            v_rms := F32.num 0, kwh := F32.num 1, timestamp := 0 }).kwh =
        F32.num (1 + ([2] : List ℚ).sum) := by
  refine ⟨by decide, ?_⟩
  exact merge_averages_sums_energy_keeps_timestamp.2
    { real_power := F32.num 0, apparent_power := F32.num 0, i_rms := F32.num 0,
      v_rms := F32.num 0, kwh := F32.num 1, timestamp := 0 }
    [{ real_power := F32.num 0, apparent_power := F32.num 0, i_rms := F32.num 0,
        v_rms := F32.num 0, kwh := F32.num 2, timestamp := 9 }]
    [2] 1 (by decide) (by decide)

/-- Helper: the settle loop runs past its timeout by at most one iteration
(entered with `k` iterations already accounting for at most `timeout`). -/
theorem settleLoopT_le (inBand : ℕ → Bool) (d timeout : ℕ) :
    ∀ (fuel k : ℕ), k * d ≤ timeout → settleLoopT inBand d timeout fuel k * d ≤ timeout + d := by
  intro fuel
  induction fuel with
  | zero =>
    intro k hk
    simp only [settleLoopT]
    omega
  | succ fuel ih =>
    intro k hk
    simp only [settleLoopT]
    by_cases h : (inBand k || decide ((k + 1) * d > timeout)) = true
    · rw [if_pos h]
      have e : (k + 1) * d = k * d + d := by ring
      omega
    · rw [if_neg h]
      apply ih
      simp only [Bool.or_eq_true, decide_eq_true_eq, not_or] at h
      obtain ⟨h1, h2⟩ := h
      omega

/-- Helper: the measurement loop runs past its timeout by at most one
iteration. -/
theorem integLoopT_le (reached : ℕ → Bool) (d timeout : ℕ) :
    ∀ (fuel k : ℕ), k * d ≤ timeout + d → integLoopT reached d timeout fuel k * d ≤ timeout + d := by
  intro fuel
  induction fuel with
  | zero =>
    intro k hk
    simpa [integLoopT] using hk
  | succ fuel ih =>
    intro k hk
    simp only [integLoopT]
    by_cases h : (reached k || decide (k * d ≥ timeout)) = true
    · rw [if_pos h]
      exact hk
    · rw [if_neg h]
      apply ih
      simp only [Bool.or_eq_true, decide_eq_true_eq, not_or] at h
      obtain ⟨h1, h2⟩ := h
      have e : (k + 1) * d = k * d + d := by ring
      omega

/-- C6 (amended): because the source restarts the clock between the settle
loop and the measurement loop, the estimate call is bounded by TWO timeouts
(not one): total time is at most 2 * timeout plus one settle iteration plus
one measurement iteration, for every sample behavior and every per-iteration
duration. -/
theorem estimate_time_le_two_timeouts (inBand reached : ℕ → Bool) (dS dI timeout : ℕ) :
    estimateTime inBand reached dS dI timeout ≤ 2 * timeout + dS + dI := by
  have h1 := settleLoopT_le inBand dS timeout (timeout + 2) 0 (by simp)
  have h2 := integLoopT_le reached dI timeout (timeout + 2) 0 (by simp)
  unfold estimateTime
  omega

/-- Helper: state invariant of the measurement-loop body iterated `k` times
from the initial state: `n_samples` counts iterations, `cross_count` counts
the sign flips among the effective voltage samples, and `sample_v` /
`check_v_cross` hold the last effective sample and its side of `start_v`. -/
theorem stepN_inv (cfg : EstCfg) (s : ℕ) (reads : ℕ → Option ℕ × Option ℕ) (offV offI : F32) :
    ∀ k : ℕ,
      (stepN cfg s reads k (initIState cfg offV offI)).n_samples = k ∧
      (stepN cfg s reads k (initIState cfg offV offI)).cross_count =
        crossesUpTo s (effV reads) k ∧
      (stepN cfg s reads k (initIState cfg offV offI)).sample_v =
        (match k with | 0 => 0 | j + 1 => effV reads j) ∧
      (stepN cfg s reads k (initIState cfg offV offI)).check_v_cross =
        (match k with | 0 => false | j + 1 => decide (effV reads j > s)) := by
  intro k
  induction k with
  | zero => exact ⟨rfl, rfl, rfl, rfl⟩
  | succ k ih =>
    obtain ⟨ihn, ihc, ihs, ihcv⟩ := ih
    refine ⟨?_, ?_, ?_, ?_⟩
    · simp only [stepN, estStep, ihn]
    · simp only [stepN, estStep, ihn, ihc, ihs, ihcv]
      cases k with
      | zero =>
        simp [crossesUpTo, effV]
      | succ j =>
        simp only [crossesUpTo, effV]
        rw [if_neg (Nat.succ_ne_zero j)]
        by_cases hab : decide ((reads (j + 1)).2.getD (effV reads j) > s) =
            decide (effV reads j > s)
        · rw [if_neg fun hne => hne hab.symm, if_pos hab]
          omega
        · rw [if_pos fun hx => hab hx.symm, if_neg hab]
    · simp only [stepN, estStep, ihn, ihs]
      cases k with
      | zero => simp [effV]
      | succ j => simp [effV]
    · simp only [stepN, estStep, ihn, ihs]
      cases k with
      | zero => simp [effV]
      | succ j => simp [effV]

/-- Helper: `runLoop` from the state reached after `j` body iterations runs
some `m ≤ fuel` further iterations, all intermediate states being below the
crossing target, and stops below the fuel bound only once the target is
reached. -/
theorem runLoop_reaches (cfg : EstCfg) (s : ℕ) (reads : ℕ → Option ℕ × Option ℕ)
    (crossing : ℕ) (offV offI : F32) :
    ∀ (fuel j : ℕ), ∃ m : ℕ, m ≤ fuel ∧
      runLoop cfg s reads crossing fuel (stepN cfg s reads j (initIState cfg offV offI)) =
        stepN cfg s reads (j + m) (initIState cfg offV offI) ∧
      (∀ i < m, (stepN cfg s reads (j + i) (initIState cfg offV offI)).cross_count < crossing) ∧
      (m < fuel →
        crossing ≤ (stepN cfg s reads (j + m) (initIState cfg offV offI)).cross_count) := by
  intro fuel
  induction fuel with
  | zero =>
    intro j
    exact ⟨0, le_refl 0, by simp [runLoop], fun i hi => absurd hi (Nat.not_lt_zero i),
      fun h => absurd h (lt_irrefl 0)⟩
  | succ fuel ih =>
    intro j
    by_cases h : (stepN cfg s reads j (initIState cfg offV offI)).cross_count < crossing
    · obtain ⟨m, hm, heq, hall, hreach⟩ := ih (j + 1)
      refine ⟨m + 1, by omega, ?_, ?_, ?_⟩
      · rw [runLoop, if_pos h]
        have e1 : estStep cfg s (reads (stepN cfg s reads j (initIState cfg offV offI)).n_samples)
            (stepN cfg s reads j (initIState cfg offV offI)) =
            stepN cfg s reads (j + 1) (initIState cfg offV offI) := rfl
        rw [e1, heq, show j + 1 + m = j + (m + 1) from by omega]
      · intro i hi
        cases i with
        | zero => simpa using h
        | succ i =>
          have := hall i (by omega)
          rwa [show j + 1 + i = j + (i + 1) from by omega] at this
      · intro hlt
        have := hreach (by omega)
        rwa [show j + 1 + m = j + (m + 1) from by omega] at this
    · refine ⟨0, by omega, ?_, fun i hi => absurd hi (Nat.not_lt_zero i), fun _ => ?_⟩
      · rw [runLoop, if_neg h, Nat.add_zero]
      · rw [Nat.add_zero]
        omega

/-- C8: in the measurement loop the crossing counter increments exactly when
the side of `start_v` (is the sample strictly greater than `start_v` — the
sign of sample − `start_v`) differs between two consecutive effective voltage
samples: after the loop `cross_count` equals the number of adjacent side
flips among the samples it processed; the very first sample never increments
the counter (one sample yields zero crossings); and the loop stops as soon as
the counter reaches the crossing target — every proper prefix of the
processed samples is below the target, and stopping short of the fuel
(timeout) bound implies the target was reached. -/
theorem cross_count_counts_sign_flips (cfg : EstCfg) (s : ℕ)
    (reads : ℕ → Option ℕ × Option ℕ) (crossing fuel : ℕ) (offV offI : F32) :
    (runLoop cfg s reads crossing fuel (initIState cfg offV offI)).cross_count =
        crossesUpTo s (effV reads)
          (runLoop cfg s reads crossing fuel (initIState cfg offV offI)).n_samples ∧
      crossesUpTo s (effV reads) 1 = 0 ∧
      (∀ j < (runLoop cfg s reads crossing fuel (initIState cfg offV offI)).n_samples,
        crossesUpTo s (effV reads) j < crossing) ∧
      ((runLoop cfg s reads crossing fuel (initIState cfg offV offI)).n_samples < fuel →
        crossing ≤ crossesUpTo s (effV reads)
          (runLoop cfg s reads crossing fuel (initIState cfg offV offI)).n_samples) := by
  obtain ⟨m, hm, heq, hall, hreach⟩ := runLoop_reaches cfg s reads crossing offV offI fuel 0
  have h0 : stepN cfg s reads 0 (initIState cfg offV offI) = initIState cfg offV offI := rfl
  rw [h0] at heq
  rw [Nat.zero_add] at heq hreach
  obtain ⟨hn, hc, _, _⟩ := stepN_inv cfg s reads offV offI m
  rw [heq]
  simp only [hn, hc]
  refine ⟨trivial, rfl, ?_, fun hlt => hc ▸ hreach hlt⟩
  intro j hj
  have hj2 := hall j (by omega)
  rw [Nat.zero_add] at hj2
  rwa [(stepN_inv cfg s reads offV offI j).2.1] at hj2

/-- C8 witness: the characterization at a concrete loop run. -/
theorem cross_count_counts_sign_flips_witness :
    (runLoop exCfg 0 (fun _ => (some 0, some 1)) 2 3
        (initIState exCfg (F32.num 0) (F32.num 0))).cross_count =
      crossesUpTo 0 (effV fun _ => (some 0, some 1))
        (runLoop exCfg 0 (fun _ => (some 0, some 1)) 2 3
          (initIState exCfg (F32.num 0) (F32.num 0))).n_samples :=
  (cross_count_counts_sign_flips exCfg 0 (fun _ => (some 0, some 1)) 2 3
    (F32.num 0) (F32.num 0)).1

/-- Helper: with a crossing target of zero the measurement loop's guard is
false on first evaluation and no iteration runs. -/
theorem runLoop_zero (cfg : EstCfg) (s : ℕ) (reads : ℕ → Option ℕ × Option ℕ)
    (fuel : ℕ) (st : IState) : runLoop cfg s reads 0 fuel st = st := by
  cases fuel with
  | zero => rfl
  | succ fuel => simp [runLoop]

/-- Helper: NaN absorbs multiplication from the right. -/
theorem F32.mul_nan (x : F32) : F32.mul x F32.nan = F32.nan := by cases x <;> rfl

/-- Helper: NaN absorbs multiplication from the left. -/
theorem F32.nan_mul (y : F32) : F32.mul F32.nan y = F32.nan := by cases y <;> rfl

/-- Helper: NaN absorbs addition from the right. -/
theorem F32.add_nan (x : F32) : F32.add x F32.nan = F32.nan := by cases x <;> rfl

/-- Helper: a NaN numerator divides to NaN. -/
theorem F32.nan_div (y : F32) : F32.div F32.nan y = F32.nan := by cases y <;> rfl

/-- C10: when the measurement loop executes zero iterations (crossing target
0, or zero fuel — an already-elapsed timeout), `calculate_energy` still
returns success; the accumulated sums are divided by a sample count of zero
(IEEE 0.0 / 0.0 = NaN), so the RMS, real-power and apparent-power values
merged into the phase's reading are NaN — not finite numbers — and both
persisted channel offsets are overwritten from the untouched min/max trackers
(min still at full scale `MAX_MV_ATTEN_11`, max still 0), becoming
`(offset + (0 + MAX_MV_ATTEN_11) / 2) / 2`. -/
theorem zero_iteration_estimate_not_finite (cfg : EstCfg) (ct : CTUnit)
    (settleReads : ℕ → Option ℕ) (settleFuel : ℕ) (reads : ℕ → Option ℕ × Option ℕ)
    (crossing fuel : ℕ) (e : ℚ) (nowMs : ℕ)
    (hzero : crossing = 0 ∨ fuel = 0) (hmv : cfg.max_mv < 2 ^ 16) :
    calculate_energy cfg ct settleReads settleFuel reads crossing fuel e nowMs =
        Except.ok (calculate_energy_run cfg ct settleReads settleFuel reads crossing fuel e nowMs) ∧
      (calculate_energy_run cfg ct settleReads settleFuel reads crossing fuel e nowMs).reading.i_rms = F32.nan ∧
      (calculate_energy_run cfg ct settleReads settleFuel reads crossing fuel e nowMs).reading.v_rms = F32.nan ∧
      (calculate_energy_run cfg ct settleReads settleFuel reads crossing fuel e nowMs).reading.real_power = F32.nan ∧
      (calculate_energy_run cfg ct settleReads settleFuel reads crossing fuel e nowMs).reading.apparent_power = F32.nan ∧
      F32.isFinite (calculate_energy_run cfg ct settleReads settleFuel reads crossing fuel e nowMs).reading.i_rms = false ∧
      F32.isFinite (calculate_energy_run cfg ct settleReads settleFuel reads crossing fuel e nowMs).reading.v_rms = false ∧
      F32.isFinite (calculate_energy_run cfg ct settleReads settleFuel reads crossing fuel e nowMs).reading.real_power = false ∧
      F32.isFinite (calculate_energy_run cfg ct settleReads settleFuel reads crossing fuel e nowMs).reading.apparent_power = false ∧
      (calculate_energy_run cfg ct settleReads settleFuel reads crossing fuel e nowMs).offset_i =
        F32.div (F32.add ct.offset_i (F32.div (F32.num ((0 + cfg.max_mv : ℕ) : ℚ)) (F32.num 2))) (F32.num 2) ∧
      (calculate_energy_run cfg ct settleReads settleFuel reads crossing fuel e nowMs).offset_v =
        F32.div (F32.add ct.offset_v (F32.div (F32.num ((0 + cfg.max_mv : ℕ) : ℚ)) (F32.num 2))) (F32.num 2) := by
  have hloop : runLoop cfg (settleLoopV cfg settleReads settleFuel 0 0) reads crossing fuel
      (initIState cfg ct.offset_v ct.offset_i) = initIState cfg ct.offset_v ct.offset_i := by
    rcases hzero with h | h
    · subst h
      exact runLoop_zero cfg (settleLoopV cfg settleReads settleFuel 0 0) reads fuel
        (initIState cfg ct.offset_v ct.offset_i)
    · subst h
      rfl
  refine ⟨rfl, ?_⟩
  unfold calculate_energy_run
  dsimp only
  rw [hloop]
  unfold finalizeEst initIState CTReading.addAssign
  dsimp only
  simp only [Nat.cast_zero, Nat.zero_add, Nat.mod_eq_of_lt hmv]
  rw [show F32.div (F32.num 0) (F32.num 0) = F32.nan from by simp [F32.div]]
  simp only [F32.sqrt, F32.mul_nan, F32.nan_mul, F32.add_nan, F32.nan_div, F32.abs,
    F32.isFinite]
  exact ⟨trivial, trivial, trivial, trivial, trivial, trivial, trivial, trivial, trivial, trivial⟩

/-- C10 witness: a zero-crossing-target run at a concrete configuration
yields a NaN current RMS. -/
theorem zero_iteration_estimate_not_finite_witness :
    ((0 : ℕ) = 0 ∨ (5 : ℕ) = 0) ∧ exCfg.max_mv < 2 ^ 16 ∧
      (calculate_energy_run exCfg
          { id := 1, offset_v := F32.num 4, offset_i := F32.num 6, reading := CTReading.reset }
          (fun _ => some 0) 3 (fun _ => (some 0, some 0)) 0 5 1 77).reading.i_rms = F32.nan := by
  refine ⟨Or.inl rfl, by decide, ?_⟩
  exact (zero_iteration_estimate_not_finite exCfg
    { id := 1, offset_v := F32.num 4, offset_i := F32.num 6, reading := CTReading.reset }
    (fun _ => some 0) 3 (fun _ => (some 0, some 0)) 0 5 1 77 (Or.inl rfl) (by decide)).2.1
